import Mathlib

set_option maxHeartbeats 1000000

/-!
Shallow embedding of `src/main.js` (a Google-search email scraper).

Embedded here: the email extractor (regex scan, lower-casing, deny-list
filter), the CSV persistence helpers and output-header initialisation,
the NopeCHA token-solver loop, the per-query session loop of `runQuery`,
the context acquisition/release structure of `runQuery`, and the batch
scheduler of the entry point.  Browser and network effects are
represented by explicit stub inputs (one record per loop iteration,
one response per solver request).
-/

/-- Character class `[a-zA-Z0-9._%+-]` (local part of `EMAIL_REGEX`,
`src/main.js:59`). -/
def isLocalChar (c : Char) : Bool :=
  c.isAlpha || c.isDigit || c == '.' || c == '_' || c == '%' || c == '+' || c == '-'

/-- Character class `[a-zA-Z0-9.-]` (domain part of `EMAIL_REGEX`). -/
def isDomainChar (c : Char) : Bool :=
  c.isAlpha || c.isDigit || c == '.' || c == '-'

/-- Backtracking search for the literal `\.` of `EMAIL_REGEX` after the
greedy `[a-zA-Z0-9.-]+`: candidate dot indices are tried from `k` down
to `1` (the JS engine shrinks the greedy `+` from the right), and a
candidate succeeds when the maximal run of ASCII letters after it has
length at least 2 (the trailing `[a-zA-Z]{2,}`).  Returns the index of
the chosen dot. -/
def tryDots (l : List Char) : Nat → Option Nat
  | 0 => none
  | k + 1 =>
    if l[k + 1]? = some '.' ∧ 2 ≤ ((l.drop (k + 2)).takeWhile Char.isAlpha).length
    then some (k + 1)
    else tryDots l k

/-- Match `[a-zA-Z0-9.-]+\.[a-zA-Z]{2,}` at the head of `l`, returning
the length of the (greedy, leftmost-backtracking) match.  The greedy
`+` can never leave the dot at the end of the maximal domain-character
run (a dot is itself a domain character), so candidates start at
`run.length - 1`. -/
def matchDomain (l : List Char) : Option Nat :=
  (tryDots l ((l.takeWhile isDomainChar).length - 1)).map
    (fun d => d + 1 + ((l.drop (d + 1)).takeWhile Char.isAlpha).length)

/-- Match the whole `EMAIL_REGEX` at the head of `l`, returning the
match length.  Since `@` is not a local-part character, the greedy
`[a-zA-Z0-9._%+-]+` can only be followed by `@` at its maximal run
length. -/
def tryMatchEmail (l : List Char) : Option Nat :=
  if (l.takeWhile isLocalChar).length = 0 then none
  else if l[(l.takeWhile isLocalChar).length]? = some '@' then
    (matchDomain (l.drop ((l.takeWhile isLocalChar).length + 1))).map
      (fun dlen => (l.takeWhile isLocalChar).length + 1 + dlen)
  else none

/-- Global scan (`text.match(EMAIL_REGEX)` with the `g` flag): repeated
leftmost match, resuming after each match.  `fuel` bounds the recursion;
every step consumes at least one character, so `l.length` fuel is
exact. -/
def scanAux : Nat → List Char → List (List Char)
  | 0, _ => []
  | _ + 1, [] => []
  | fuel + 1, c :: rest =>
    match tryMatchEmail (c :: rest) with
    | some n => (c :: rest).take n :: scanAux fuel ((c :: rest).drop n)
    | none => scanAux fuel rest

/-- All matches of `EMAIL_REGEX` in `l`, in order. -/
def scanEmails (l : List Char) : List (List Char) :=
  scanAux l.length l

/-- `startsWithL pat l`: `pat` is an initial segment of `l`. -/
def startsWithL : List Char → List Char → Bool
  | [], _ => true
  | _ :: _, [] => false
  | p :: ps, c :: cs => p == c && startsWithL ps cs

/-- `occursIn pat l`: `pat` occurs as a contiguous substring of `l`
(the semantics of `RegExp.test` for a literal alternative). -/
def occursIn (pat : List Char) : List Char → Bool
  | [] => startsWithL pat []
  | c :: cs => startsWithL pat (c :: cs) || occursIn pat cs

/-- The deny-list test
`/(example\.com|example\.org|example\.net|noreply@|no-reply@)/.test(e)`
from `extractEmailsFromPage` (`src/main.js:135`). -/
def isDeniedEmail (e : String) : Bool :=
  occursIn "example.com".data e.data ||
  occursIn "example.org".data e.data ||
  occursIn "example.net".data e.data ||
  occursIn "noreply@".data e.data ||
  occursIn "no-reply@".data e.data

/-- Per-character lower-casing, the effect of JS `toLowerCase` on the
ASCII-only strings `EMAIL_REGEX` can match. -/
def lowerStr (s : String) : String :=
  String.mk (s.data.map Char.toLower)

/-- The pure core of `extractEmailsFromPage` (`src/main.js:130-140`):
match `EMAIL_REGEX` globally against the page text, lower-case every
match, and drop deny-listed matches. -/
def extractEmailsFromPage (text : String) : List String :=
  ((scanEmails text.data).map (fun m => String.mk (m.map Char.toLower))).filter
    (fun e => !(isDeniedEmail e))

/-- Whole-string acceptance by `EMAIL_REGEX`: the match starting at
position 0 covers exactly the string.  Used to state which inputs are
"syntactically valid addresses" for the extractor claims. -/
def validEmailB (s : String) : Bool :=
  tryMatchEmail s.data == some s.data.length

/-- Join character lists with a single space (a character in neither
class of `EMAIL_REGEX`) between consecutive entries. -/
def sepJoin : List (List Char) → List Char
  | [] => []
  | [a] => a
  | a :: b :: t => a ++ ' ' :: sepJoin (b :: t)

/-- A page text consisting of the given strings separated by single
spaces. -/
def joinedText (as : List String) : String :=
  String.mk (sepJoin (as.map String.data))

/-- One extracted row (`{ email, query, timestamp }`,
`src/main.js:473`). -/
structure EmailRow where
  email : String
  query : String
  timestamp : String
deriving DecidableEq, Repr

/-- `escapeCsv` (`src/main.js:80-86`): quote a field when it contains a
separator, a quote or a newline, doubling embedded quotes. -/
def escapeCsv (s : String) : String :=
  if s.data.contains ',' || s.data.contains '"' || s.data.contains '\n' then
    "\"" ++ String.mk (s.data.foldr
      (fun c acc => if c = '"' then '"' :: '"' :: acc else c :: acc) []) ++ "\""
  else s

/-- The line `appendToCSV` builds for one row (`src/main.js:90`):
`escapeCsv(r.email) + "," + escapeCsv(r.timestamp)`. -/
def csvRowLine (r : EmailRow) : String :=
  escapeCsv r.email ++ "," ++ escapeCsv r.timestamp

/-- JS `Array.prototype.join("\n")`. -/
def joinNl : List String → String
  | [] => ""
  | [s] => s
  | s :: t => s ++ "\n" ++ joinNl t

/-- The content appended to the output file by `appendToCSV`
(`src/main.js:88-96`); the empty string models the early return for an
empty batch. -/
def appendToCSV (rows : List EmailRow) : String :=
  match rows with
  | [] => ""
  | r :: rs => joinNl ((r :: rs).map csvRowLine) ++ "\n"

/-- One row of the Supabase insert built by `saveToSupabase`
(`src/main.js:120`): `{ created_at: r.timestamp, email: r.email }`. -/
structure SupaRow where
  created_at : String
  email : String
deriving DecidableEq, Repr

/-- The insert batch `saveToSupabase` sends for a row batch. -/
def saveToSupabase (rows : List EmailRow) : List SupaRow :=
  rows.map (fun r => { created_at := r.timestamp, email := r.email })

/-- Split a character list at every comma (field decomposition of one
unquoted CSV line). -/
def splitFields : List Char → List (List Char)
  | [] => [[]]
  | c :: t =>
    match splitFields t with
    | [] => [[]]
    | f :: fs => if c = ',' then [] :: f :: fs else (c :: f) :: fs

/-- The fixed header written by the startup block (`src/main.js:64`). -/
def csvHeader : String := "email,query,timestamp"

/-- JS `content.split(/\r?\n/)[0] || ''`: everything before the first
`\n` or `\r\n`; a `\r` not followed by `\n` does not split. -/
def firstLineChars : List Char → List Char
  | [] => []
  | c :: t =>
    if c = '\n' then []
    else if c = '\r' then
      match t with
      | '\n' :: _ => []
      | _ => '\r' :: firstLineChars t
    else c :: firstLineChars t

/-- ASCII whitespace removed by JS `String.prototype.trim` (the inputs
of interest contain no exotic Unicode whitespace). -/
def isWsChar (c : Char) : Bool :=
  c == ' ' || c == '\t' || c == '\n' || c == '\r'

/-- Strip whitespace from both ends of a character list. -/
def trimChars (l : List Char) : List Char :=
  ((l.dropWhile isWsChar).reverse.dropWhile isWsChar).reverse

/-- The output-header initialisation (`src/main.js:62-73`), as a
function from the prior state of the output file (`none` = missing) to
the new file content and the content of the backup copy, if one is
made. -/
def initOutput : Option String → String × Option String
  | none => (csvHeader ++ "\n", none)
  | some c =>
    if String.mk (trimChars (firstLineChars c.data)) = csvHeader then (c, none)
    else (csvHeader ++ "\n", some c)

/-- Stub for one iteration of the `runQuery` loop (`src/main.js:446-485`):
the result of `maybeHandleCaptcha` (`present`, `solved` — that helper
catches all its own errors and never throws), whether the unprotected
recovery wait `page.waitForTimeout` at `src/main.js:465` throws, the
rendered page text fed to `extractEmailsFromPage`, and the result of
`goToNextPage` (which also swallows all per-selector errors). -/
structure IterIn where
  present : Bool
  solved : Bool
  recoveryThrows : Bool
  pageText : String
  hasNext : Bool
deriving DecidableEq, Repr

/-- Mutable state of one query session (`src/main.js:442-443`):
the `collected` set (insertion order kept), `pageNum`, and
`consecutiveCaptcha`. -/
structure SessionSt where
  collected : List String
  pageNum : Nat
  cc : Nat
deriving DecidableEq, Repr

/-- `collected = new Set(); pageNum = 1; consecutiveCaptcha = 0`. -/
def initialSession : SessionSt := ⟨[], 1, 0⟩

/-- How the session loop ended: `pending` = stub trace exhausted with
the loop still running, `blocked` = three consecutive unsolved captchas
(`src/main.js:454-456`), `noNext` = paginator found no next page
(`src/main.js:482`), `crashed` = an error escaped the loop body and was
caught at `src/main.js:486`. -/
inductive Outcome
  | pending
  | blocked
  | noNext
  | crashed
deriving DecidableEq, Repr

/-- Observable record of one loop iteration: the seen-set before and
after, the identities handed to `appendToCSV`/`saveToSupabase`, and
whether the extraction pass ran. -/
structure IterEv where
  seenBefore : List String
  handoff : List String
  seenAfter : List String
  extracted : Bool
deriving DecidableEq, Repr

/-- Result of one iteration: continue looping or halt with an
outcome. -/
inductive StepRes
  | cont (st : SessionSt)
  | halt (o : Outcome) (st : SessionSt)
deriving DecidableEq, Repr

/-- The session state carried by a step result. -/
def StepRes.state : StepRes → SessionSt
  | .cont st => st
  | .halt _ st => st

/-- `newEmails.forEach(e => collected.add(e))`: insert each element in
order, skipping ones already present. -/
def addAll (seen : List String) : List String → List String
  | [] => seen
  | e :: es => addAll (if e ∈ seen then seen else seen ++ [e]) es

/-- The extraction/persistence/pagination tail of a loop iteration
(`src/main.js:468-484`), shared by every non-halting entry path. -/
def doExtract (st : SessionSt) (inp : IterIn) : StepRes × IterEv :=
  let seen0 := st.collected
  let emails := extractEmailsFromPage inp.pageText
  let newEmails := emails.filter (fun e => !(decide (e ∈ seen0)))
  let seen1 := addAll seen0 newEmails
  let ev : IterEv := ⟨seen0, newEmails, seen1, true⟩
  if inp.hasNext then
    (.cont { st with collected := seen1, pageNum := st.pageNum + 1 }, ev)
  else
    (.halt .noNext { st with collected := seen1 }, ev)

/-- One iteration of the `while (true)` loop of `runQuery`
(`src/main.js:446-485`), in source order: captcha classification and
counter update, the `break` at three consecutive unsolved captchas,
the recovery wait (which can throw and escape the loop), extraction,
dedup against the seen set, persistence handoff, pagination. -/
def stepIter (st : SessionSt) (inp : IterIn) : StepRes × IterEv :=
  if inp.present = true ∧ inp.solved = false then
    if 3 ≤ st.cc + 1 then
      (.halt .blocked { st with cc := st.cc + 1 }, ⟨st.collected, [], st.collected, false⟩)
    else
      doExtract { st with cc := st.cc + 1 } inp
  else
    if inp.present = true ∧ inp.solved = true ∧ inp.recoveryThrows = true then
      (.halt .crashed { st with cc := 0 }, ⟨st.collected, [], st.collected, false⟩)
    else
      doExtract { st with cc := 0 } inp

/-- Result of running the session loop over a stub trace. -/
structure LoopRes where
  state : SessionSt
  outcome : Outcome
  events : List IterEv
deriving DecidableEq, Repr

/-- Run the `runQuery` loop over a finite stub trace, one `IterIn` per
iteration, stopping at the first halting iteration. -/
def runLoop (st : SessionSt) : List IterIn → LoopRes
  | [] => ⟨st, .pending, []⟩
  | inp :: rest =>
    match stepIter st inp with
    | (.cont st', ev) =>
      let r := runLoop st' rest
      ⟨r.state, r.outcome, ev :: r.events⟩
    | (.halt o st', ev) => ⟨st', o, [ev]⟩

/-- Exit status of a whole `runQuery` call. -/
inductive SessionExit
  | normal (o : Outcome)
  | raised
deriving DecidableEq, Repr

/-- Context lifecycle of `runQuery` (`src/main.js:428-492`): `newContext`
(line 429, may throw before anything is acquired), `newPage` (line 434,
outside every `try`), the guarded initial `goto`, then the loop inside
`try ... catch ... finally { context.close() }`.  Returns the exit
status, the number of contexts acquired and the number of times the
context is released. -/
def runQuerySession (ncThrows npThrows : Bool) (inputs : List IterIn) :
    SessionExit × Nat × Nat :=
  if ncThrows then (.raised, 0, 0)
  else if npThrows then (.raised, 1, 0)
  else (.normal (runLoop initialSession inputs).outcome, 1, 1)

/-- Stub response to the `POST /token` request of `solveRecaptchaToken`
(`src/main.js:188-209`): either the `fetch` threw (caught, next type),
or a response with `res.ok`, `res.status`, whether the body matches
`/Invalid type/i`, and the parsed `token` and `id || data || task`
fields (`none` for both also covers an unparsable body). -/
inductive PostResp
  | netErr
  | resp (ok : Bool) (status : Nat) (invalidTypeBody : Bool)
      (token : Option String) (idLike : Option String)
deriving DecidableEq, Repr

/-- Stub response to one `GET` poll (`src/main.js:214-224`). -/
structure PollResp where
  threw : Bool
  ok : Bool
  status : Nat
  token : Option String
  solution : Option String
  dataStr : Option String
deriving DecidableEq, Repr

/-- Observable solver events: one `tried t` per `POST` for type `t`,
one `slept ms` per `await sleep(ms)`. -/
inductive SolverEv
  | tried (t : String)
  | slept (ms : Nat)
deriving DecidableEq, Repr

/-- The fallback order `['recaptcha3', 'recaptcha',
'recaptcha_enterprise']` (`src/main.js:177`). -/
def fallbackTypes : List String := ["recaptcha3", "recaptcha", "recaptcha_enterprise"]

/-- The candidate type list (`src/main.js:174-179`): the hint first when
present, then each fallback type not already included. -/
def buildTypes (hint : Option String) : List String :=
  let ts := match hint with
    | some h => [h]
    | none => []
  fallbackTypes.foldl (fun acc t => if t ∈ acc then acc else acc ++ [t]) ts

/-- The 20-attempt poll loop (`src/main.js:211-227`): sleep 1.5s, poll,
back off 1s more on a 429, return the first non-empty
`token`/`solution`/string `data`.  `i` is the attempt index, the second
argument the remaining attempts. -/
def pollAux (poll : Nat → PollResp) (i : Nat) : Nat → Option String × List SolverEv
  | 0 => (none, [])
  | n + 1 =>
    let r := poll i
    if r.threw then
      let rec' := pollAux poll (i + 1) n
      (rec'.1, SolverEv.slept 1500 :: rec'.2)
    else if r.ok = false then
      if r.status = 429 then
        let rec' := pollAux poll (i + 1) n
        (rec'.1, SolverEv.slept 1500 :: SolverEv.slept 1000 :: rec'.2)
      else
        let rec' := pollAux poll (i + 1) n
        (rec'.1, SolverEv.slept 1500 :: rec'.2)
    else
      match r.token with
      | some tk => (some tk, [SolverEv.slept 1500])
      | none =>
        match r.solution with
        | some s => (some s, [SolverEv.slept 1500])
        | none =>
          match r.dataStr with
          | some d => (some d, [SolverEv.slept 1500])
          | none =>
            let rec' := pollAux poll (i + 1) n
            (rec'.1, SolverEv.slept 1500 :: rec'.2)

/-- One type attempt of the solver loop body (`src/main.js:181-231`):
POST; on a non-ok response, advance — immediately for a 400 whose body
says `Invalid type`, after a 1s backoff for a 429, immediately
otherwise; on an ok response return the token if present, else poll on
the ticket id if present, else advance. -/
def tryType (svc : String → PostResp) (poll : String → Nat → PollResp)
    (t : String) : Option String × List SolverEv :=
  match svc t with
  | .netErr => (none, [SolverEv.tried t])
  | .resp ok status invalid tok idLike =>
    if ok = false then
      if status = 400 ∧ invalid = true then (none, [SolverEv.tried t])
      else if status = 429 then (none, [SolverEv.tried t, SolverEv.slept 1000])
      else (none, [SolverEv.tried t])
    else
      match tok with
      | some tk => (some tk, [SolverEv.tried t])
      | none =>
        match idLike with
        | some id =>
          let p := pollAux (poll id) 0 20
          (p.1, SolverEv.tried t :: p.2)
        | none => (none, [SolverEv.tried t])

/-- The `for (const t of types)` loop (`src/main.js:181-231`): try each
type in order, stopping at the first one that yields a token. -/
def solveLoop (svc : String → PostResp) (poll : String → Nat → PollResp) :
    List String → Option String × List SolverEv
  | [] => (none, [])
  | t :: ts =>
    let r := tryType svc poll t
    match r.1 with
    | some tk => (some tk, r.2)
    | none =>
      let r' := solveLoop svc poll ts
      (r'.1, r.2 ++ r'.2)

/-- `solveRecaptchaToken` (`src/main.js:163-235`): returns `none`
immediately without a key, otherwise runs the type loop and returns
`none` (never throws) when every type is exhausted. -/
def solveRecaptchaToken (hasKey : Bool) (hint : Option String)
    (svc : String → PostResp) (poll : String → Nat → PollResp) :
    Option String × List SolverEv :=
  if hasKey then solveLoop svc poll (buildTypes hint)
  else (none, [])

/-- Settled state of one session promise, after `Promise.allSettled`. -/
inductive SettledRes
  | fulfilled
  | rejected (msg : String)
deriving DecidableEq, Repr

/-- `Promise.allSettled` never rejects: both outcomes become a settled
result. -/
def settleRes : Except String Unit → SettledRes
  | .ok _ => .fulfilled
  | .error e => .rejected e

/-- The batching loop of the entry point (`src/main.js:516-521`):
`queries.slice(idx, idx + C)` for `idx = 0, C, 2C, ...`.  `fuel` bounds
the recursion; with `1 ≤ C` every step drops at least one element. -/
def batchesAux (C : Nat) : Nat → List String → List (List String)
  | 0, _ => []
  | _ + 1, [] => []
  | fuel + 1, q :: qs => (q :: qs).take C :: batchesAux C fuel ((q :: qs).drop C)

/-- The consecutive batches the scheduler runs. -/
def batchSlices (C : Nat) (qs : List String) : List (List String) :=
  batchesAux C qs.length qs

/-- The scheduler (`src/main.js:516-521`) with session results supplied
by a stub: each batch is awaited with `Promise.allSettled`, so every
session of a batch reaches a settled state — fulfilled or rejected —
before the next batch starts. -/
def runScheduler (sess : String → Except String Unit) (C : Nat)
    (qs : List String) : List (List SettledRes) :=
  (batchSlices C qs).map (fun b => b.map (fun q => settleRes (sess q)))

/-- Concrete solver-service stub: type `recaptcha3` answers 400 with an
`Invalid type` body, type `recaptcha` answers a token, anything else a
500. -/
def svcStubA : String → PostResp := fun t =>
  if t == "recaptcha3" then PostResp.resp false 400 true none none
  else if t == "recaptcha" then PostResp.resp true 200 false (some "TOK") none
  else PostResp.resp false 500 false none none

/-- Solver-service stub that always answers 429 (rate limited). -/
def svcStub429 : String → PostResp := fun _ => PostResp.resp false 429 false none none

/-- Solver-service stub whose request always throws. -/
def svcStubErr : String → PostResp := fun _ => PostResp.netErr

/-- Poll stub that never returns a result. -/
def pollStubZ : String → Nat → PollResp := fun _ _ => ⟨false, true, 200, none, none, none⟩

/-! ### Generic list lemmas used by the matcher proofs -/

theorem tw_append {α : Type} (p : α → Bool) (c : α) (hc : p c = false)
    (xs t : List α) : ((xs ++ c :: t).takeWhile p) = xs.takeWhile p := by
  induction xs with
  | nil => simp [List.takeWhile_cons, hc]
  | cons x xs ih =>
    cases hx : p x with
    | true => simp [List.takeWhile_cons, hx, ih]
    | false => simp [List.takeWhile_cons, hx]

theorem getq_append {α : Type} (xs ys : List α) (i : Nat) (h : i < xs.length) :
    (xs ++ ys)[i]? = xs[i]? := by
  induction xs generalizing i with
  | nil => simp at h
  | cons x xs ih =>
    cases i with
    | zero => simp
    | succ n =>
      simp only [List.cons_append, List.getElem?_cons_succ]
      exact ih n (by simpa using Nat.lt_of_succ_lt_succ h)

theorem getq_none {α : Type} (xs : List α) (i : Nat) (h : xs.length ≤ i) :
    xs[i]? = none := by
  induction xs generalizing i with
  | nil => simp
  | cons x xs ih =>
    cases i with
    | zero => simp at h
    | succ n =>
      simp only [List.getElem?_cons_succ]
      exact ih n (by simpa using Nat.le_of_succ_le_succ h)

theorem drop_append_le {α : Type} (xs ys : List α) (n : Nat) (h : n ≤ xs.length) :
    (xs ++ ys).drop n = xs.drop n ++ ys := by
  induction xs generalizing n with
  | nil =>
    have : n = 0 := Nat.le_zero.mp h
    simp [this]
  | cons x xs ih =>
    cases n with
    | zero => simp
    | succ m =>
      simp only [List.cons_append, List.drop_succ_cons]
      exact ih m (by simpa using Nat.le_of_succ_le_succ h)

theorem take_append_self {α : Type} (xs ys : List α) :
    (xs ++ ys).take xs.length = xs := by
  induction xs with
  | nil => simp
  | cons x xs ih => simp [ih]

theorem drop_append_self {α : Type} (xs ys : List α) :
    (xs ++ ys).drop xs.length = ys := by
  induction xs with
  | nil => simp
  | cons x xs ih => simp [ih]

theorem takeWhile_len_le {α : Type} (p : α → Bool) (l : List α) :
    (l.takeWhile p).length ≤ l.length := by
  induction l with
  | nil => simp
  | cons x xs ih =>
    cases hx : p x with
    | true => simpa [List.takeWhile_cons, hx] using Nat.succ_le_succ ih
    | false => simp [List.takeWhile_cons, hx]

theorem filter_self_of_all {α : Type} (p : α → Bool) (l : List α)
    (h : ∀ x ∈ l, p x = true) : l.filter p = l := by
  induction l with
  | nil => rfl
  | cons x xs ih =>
    have hx := h x (List.mem_cons_self x xs)
    simp [List.filter_cons, hx, ih (fun y hy => h y (List.mem_cons_of_mem x hy))]

/-! ### Matcher lemmas: a match of the whole string survives appending
a separator character that is in neither character class -/

theorem alpha_domain_false {c : Char} (h : isDomainChar c = false) :
    Char.isAlpha c = false := by
  cases ha : c.isAlpha with
  | false => rfl
  | true => rw [isDomainChar, ha] at h; simp at h

theorem tryDots_le {l : List Char} :
    ∀ {m d : Nat}, tryDots l m = some d → 1 ≤ d ∧ d ≤ m := by
  intro m
  induction m with
  | zero => intro d h; simp [tryDots] at h
  | succ k ih =>
    intro d h
    rw [tryDots] at h
    split at h
    · cases h; omega
    · have := ih h; omega

theorem tryDots_append {s t : List Char} {c : Char} (hc : isDomainChar c = false) :
    ∀ m, m < s.length → tryDots (s ++ c :: t) m = tryDots s m := by
  intro m
  induction m with
  | zero => intro _; rfl
  | succ k ih =>
    intro hm
    have e1 : (s ++ c :: t)[k + 1]? = s[k + 1]? := getq_append s (c :: t) (k + 1) hm
    have e2 : ((s ++ c :: t).drop (k + 2)).takeWhile Char.isAlpha
        = (s.drop (k + 2)).takeWhile Char.isAlpha := by
      rw [drop_append_le s (c :: t) (k + 2) (by omega)]
      exact tw_append Char.isAlpha c (alpha_domain_false hc) _ t
    rw [tryDots, tryDots, e1, e2, ih (by omega)]

theorem matchDomain_append {s t : List Char} {c : Char} (hc : isDomainChar c = false)
    (h : matchDomain s = some s.length) :
    matchDomain (s ++ c :: t) = some s.length := by
  have hrun : (s ++ c :: t).takeWhile isDomainChar = s.takeWhile isDomainChar :=
    tw_append isDomainChar c hc s t
  rw [matchDomain] at h
  rw [matchDomain, hrun]
  cases hd : tryDots s ((s.takeWhile isDomainChar).length - 1) with
  | none => rw [hd] at h; simp at h
  | some d =>
    rw [hd] at h
    simp only [Option.map_some'] at h
    have hdb := tryDots_le hd
    have hrl : 1 ≤ (s.takeWhile isDomainChar).length := by
      by_contra hz
      have h0 : (s.takeWhile isDomainChar).length - 1 = 0 := by omega
      rw [h0] at hd
      simp [tryDots] at hd
    have hls : (s.takeWhile isDomainChar).length ≤ s.length := takeWhile_len_le _ _
    rw [tryDots_append hc ((s.takeWhile isDomainChar).length - 1) (by omega), hd]
    simp only [Option.map_some']
    have hdrop : (s ++ c :: t).drop (d + 1) = s.drop (d + 1) ++ c :: t :=
      drop_append_le s (c :: t) (d + 1) (by omega)
    rw [hdrop, tw_append Char.isAlpha c (alpha_domain_false hc)]
    exact h

theorem local_run_ne {l : List Char} {n : Nat} (h : tryMatchEmail l = some n) :
    (l.takeWhile isLocalChar).length ≠ 0 := by
  intro h0
  rw [tryMatchEmail, if_pos h0] at h
  cases h

theorem tryMatchEmail_pos {l : List Char} {n : Nat} (h : tryMatchEmail l = some n) :
    2 ≤ n := by
  have h0 := local_run_ne h
  rw [tryMatchEmail, if_neg h0] at h
  split at h
  · cases hmd : matchDomain (l.drop ((l.takeWhile isLocalChar).length + 1)) with
    | none => rw [hmd] at h; cases h
    | some dlen =>
      rw [hmd] at h
      simp only [Option.map_some', Option.some.injEq] at h
      omega
  · cases h

theorem tryMatchEmail_append {s t : List Char} {c : Char}
    (hl : isLocalChar c = false) (hd : isDomainChar c = false)
    (h : tryMatchEmail s = some s.length) :
    tryMatchEmail (s ++ c :: t) = some s.length := by
  have h0 := local_run_ne h
  have hk : (s ++ c :: t).takeWhile isLocalChar = s.takeWhile isLocalChar :=
    tw_append isLocalChar c hl s t
  rw [tryMatchEmail, if_neg h0] at h
  rw [tryMatchEmail, hk, if_neg h0]
  by_cases hat : s[(s.takeWhile isLocalChar).length]? = some '@'
  · have hkx : (s.takeWhile isLocalChar).length < s.length := by
      by_contra hh
      rw [getq_none s _ (by omega)] at hat
      cases hat
    rw [if_pos hat] at h
    rw [getq_append s (c :: t) _ hkx, if_pos hat]
    cases hmd : matchDomain (s.drop ((s.takeWhile isLocalChar).length + 1)) with
    | none => rw [hmd] at h; cases h
    | some dlen =>
      rw [hmd] at h
      simp only [Option.map_some', Option.some.injEq] at h
      have hdl : dlen = (s.drop ((s.takeWhile isLocalChar).length + 1)).length := by
        rw [List.length_drop]
        omega
      rw [drop_append_le s (c :: t) _ (by omega)]
      rw [matchDomain_append hd (by rw [hmd, hdl])]
      simp only [Option.map_some']
      rw [← hdl]
      exact congrArg some h
  · rw [if_neg hat] at h
    cases h

/-! ### Scan lemmas -/

theorem scanAux_nil : ∀ fuel, scanAux fuel [] = [] := by
  intro fuel
  cases fuel <;> rfl

theorem scanAux_fuel :
    ∀ (f1 f2 : Nat) (l : List Char), l.length ≤ f1 → l.length ≤ f2 →
      scanAux f1 l = scanAux f2 l := by
  intro f1
  induction f1 with
  | zero =>
    intro f2 l h1 _
    have hl : l = [] := List.eq_nil_of_length_eq_zero (Nat.le_zero.mp h1)
    subst hl
    rw [scanAux_nil, scanAux_nil]
  | succ k ih =>
    intro f2 l h1 h2
    cases l with
    | nil => rw [scanAux_nil, scanAux_nil]
    | cons c rest =>
      cases f2 with
      | zero => simp at h2
      | succ m =>
        cases hm : tryMatchEmail (c :: rest) with
        | none =>
          simp only [scanAux, hm]
          exact ih m rest (by simp at h1; omega) (by simp at h2; omega)
        | some n =>
          have hn := tryMatchEmail_pos hm
          simp only [scanAux, hm]
          rw [ih m ((c :: rest).drop n)
            (by simp [List.length_drop] at h1 ⊢; omega)
            (by simp [List.length_drop] at h2 ⊢; omega)]

theorem scan_single {a : List Char} (h : tryMatchEmail a = some a.length) :
    scanEmails a = [a] := by
  have h2 := tryMatchEmail_pos h
  obtain ⟨x, xs, hxa⟩ : ∃ x xs, a = x :: xs := by
    cases a with
    | nil => simp at h2
    | cons x xs => exact ⟨x, xs, rfl⟩
  subst hxa
  rw [scanEmails]
  simp only [List.length_cons, scanAux, h]
  simp only [List.take_succ_cons, List.drop_succ_cons]
  rw [List.take_length, List.drop_length, scanAux_nil]

theorem scan_cons_match {a rest : List Char} (h : tryMatchEmail a = some a.length) :
    scanEmails (a ++ ' ' :: rest) = a :: scanEmails rest := by
  have h2 := tryMatchEmail_pos h
  have hsp1 : isLocalChar ' ' = false := by decide
  have hsp2 : isDomainChar ' ' = false := by decide
  have hext : tryMatchEmail (a ++ ' ' :: rest) = some a.length :=
    tryMatchEmail_append hsp1 hsp2 h
  obtain ⟨x, xs, hxa⟩ : ∃ x xs, a = x :: xs := by
    cases a with
    | nil => simp at h2
    | cons x xs => exact ⟨x, xs, rfl⟩
  subst hxa
  rw [scanEmails]
  have hlen : ((x :: xs) ++ ' ' :: rest).length = (xs.length + rest.length + 1) + 1 := by
    simp [List.length_append]
    omega
  rw [hlen, List.cons_append]
  rw [List.cons_append] at hext
  simp only [scanAux, hext]
  rw [← List.cons_append]
  rw [take_append_self (x :: xs) (' ' :: rest), drop_append_self (x :: xs) (' ' :: rest)]
  have hnosp : tryMatchEmail (' ' :: rest) = none := by
    rw [tryMatchEmail]
    have htw : (' ' :: rest).takeWhile isLocalChar = [] := by
      simp [List.takeWhile_cons, hsp1]
    rw [htw]
    simp
  simp only [scanAux, hnosp]
  rw [scanEmails]
  rw [scanAux_fuel (xs.length + rest.length) rest.length rest (by omega) (Nat.le_refl _)]

theorem scan_join :
    ∀ as : List (List Char), (∀ a ∈ as, tryMatchEmail a = some a.length) →
      scanEmails (sepJoin as) = as := by
  intro as
  induction as with
  | nil => intro _; rfl
  | cons a bs ih =>
    intro h
    cases bs with
    | nil =>
      exact scan_single (h a (List.mem_cons_self a []))
    | cons b t =>
      rw [sepJoin]
      rw [scan_cons_match (h a (List.mem_cons_self a (b :: t)))]
      rw [ih (fun y hy => h y (List.mem_cons_of_mem a hy))]

/-! ### Extractor on separated input -/

theorem extract_joined (as : List String)
    (hv : ∀ a ∈ as, tryMatchEmail a.data = some a.data.length)
    (hd : ∀ a ∈ as, isDeniedEmail (lowerStr a) = false) :
    extractEmailsFromPage (joinedText as) = as.map lowerStr := by
  rw [extractEmailsFromPage]
  have hdata : (joinedText as).data = sepJoin (as.map String.data) := rfl
  rw [hdata]
  rw [scan_join (as.map String.data) (by
    intro m hm
    obtain ⟨a, ha, rfl⟩ := List.mem_map.mp hm
    exact hv a ha)]
  rw [List.map_map]
  have hmm : ((fun m => String.mk (m.map Char.toLower)) ∘ String.data) = lowerStr := rfl
  rw [hmm]
  apply filter_self_of_all
  intro e he
  obtain ⟨a, ha, rfl⟩ := List.mem_map.mp he
  simp [hd a ha]

/-! ### Session-loop lemmas -/

theorem addAll_sub (es : List String) :
    ∀ (seen : List String), ∀ e ∈ seen, e ∈ addAll seen es := by
  induction es with
  | nil => intro seen e he; exact he
  | cons x es ih =>
    intro seen e he
    rw [addAll]
    apply ih
    by_cases hx : x ∈ seen
    · simpa [hx] using he
    · simp only [hx, if_false, List.mem_append]
      exact Or.inl he

theorem addAll_mem (es : List String) :
    ∀ (seen : List String), ∀ e ∈ es, e ∈ addAll seen es := by
  induction es with
  | nil => intro seen e he; cases he
  | cons x es ih =>
    intro seen e he
    rw [addAll]
    rcases List.mem_cons.mp he with he1 | he2
    · subst he1
      apply addAll_sub
      by_cases hx : e ∈ seen
      · simp [hx]
      · simp [hx]
    · exact ih _ e he2

theorem doExtract_ev (st : SessionSt) (inp : IterIn) :
    (doExtract st inp).2.extracted = true ∧
    (doExtract st inp).2.seenBefore = st.collected ∧
    (doExtract st inp).2.handoff
      = (extractEmailsFromPage inp.pageText).filter (fun e => !(decide (e ∈ st.collected))) ∧
    (doExtract st inp).2.seenAfter
      = addAll st.collected
          ((extractEmailsFromPage inp.pageText).filter (fun e => !(decide (e ∈ st.collected)))) ∧
    (doExtract st inp).1.state.collected = (doExtract st inp).2.seenAfter ∧
    (doExtract st inp).1.state.cc = st.cc := by
  cases hn : inp.hasNext <;> simp [doExtract, hn, StepRes.state]

theorem stepIter_cont_extracted {st : SessionSt} {inp : IterIn} {st' : SessionSt}
    {ev : IterEv} (h : stepIter st inp = (.cont st', ev)) : ev.extracted = true := by
  rw [stepIter] at h
  split at h
  · split at h
    · simp at h
    · have h2 := congrArg Prod.snd h
      simp only at h2
      rw [← h2]
      exact (doExtract_ev _ _).1
  · split at h
    · simp at h
    · have h2 := congrArg Prod.snd h
      simp only at h2
      rw [← h2]
      exact (doExtract_ev _ _).1

theorem stepIter_noNext_extracted {st : SessionSt} {inp : IterIn} {st' : SessionSt}
    {ev : IterEv} (h : stepIter st inp = (.halt .noNext st', ev)) : ev.extracted = true := by
  rw [stepIter] at h
  split at h
  · split at h
    · simp at h
    · have h2 := congrArg Prod.snd h
      simp only at h2
      rw [← h2]
      exact (doExtract_ev _ _).1
  · split at h
    · simp at h
    · have h2 := congrArg Prod.snd h
      simp only at h2
      rw [← h2]
      exact (doExtract_ev _ _).1

theorem stepIter_crashed {st : SessionSt} {inp : IterIn} {st' : SessionSt}
    {ev : IterEv} (h : stepIter st inp = (.halt .crashed st', ev)) :
    inp.present = true ∧ inp.solved = true ∧ inp.recoveryThrows = true := by
  rw [stepIter] at h
  split at h
  · split at h
    · simp at h
    · cases hn : inp.hasNext <;> simp [doExtract, hn] at h
  · rename_i hcond
    split at h
    · assumption
    · cases hn : inp.hasNext <;> simp [doExtract, hn] at h

theorem stepIter_reset {st : SessionSt} {inp : IterIn}
    (h : (inp.present && !inp.solved) = false) :
    (stepIter st inp).1.state.cc = 0 := by
  have hcond : ¬(inp.present = true ∧ inp.solved = false) := by
    rintro ⟨e1, e2⟩
    rw [e1, e2] at h
    simp at h
  rw [stepIter, if_neg hcond]
  split
  · rfl
  · exact (doExtract_ev _ _).2.2.2.2.2

theorem stepIter_seen (st : SessionSt) (inp : IterIn) :
    (stepIter st inp).1.state.collected = (stepIter st inp).2.seenAfter ∧
    (stepIter st inp).2.seenBefore = st.collected ∧
    (∀ e ∈ (stepIter st inp).2.handoff,
      ¬ e ∈ (stepIter st inp).2.seenBefore ∧ e ∈ (stepIter st inp).2.seenAfter) ∧
    (∀ e ∈ (stepIter st inp).2.seenBefore, e ∈ (stepIter st inp).2.seenAfter) := by
  rw [stepIter]
  split
  · split
    · simp [StepRes.state]
    · have hde := doExtract_ev { st with cc := st.cc + 1 } inp
      refine ⟨hde.2.2.2.2.1, hde.2.1, ?_, ?_⟩
      · intro e he
        rw [hde.2.2.1] at he
        have hmem := List.mem_filter.mp he
        have hnot : ¬ e ∈ st.collected := by
          have := hmem.2
          simp at this
          exact this
        constructor
        · rw [hde.2.1]; exact hnot
        · rw [hde.2.2.2.1]; exact addAll_mem _ _ e he
      · intro e he
        rw [hde.2.1] at he
        rw [hde.2.2.2.1]
        exact addAll_sub _ _ e he
  · split
    · simp [StepRes.state]
    · have hde := doExtract_ev { st with cc := 0 } inp
      refine ⟨hde.2.2.2.2.1, hde.2.1, ?_, ?_⟩
      · intro e he
        rw [hde.2.2.1] at he
        have hmem := List.mem_filter.mp he
        have hnot : ¬ e ∈ st.collected := by
          have := hmem.2
          simp at this
          exact this
        constructor
        · rw [hde.2.1]; exact hnot
        · rw [hde.2.2.2.1]; exact addAll_mem _ _ e he
      · intro e he
        rw [hde.2.1] at he
        rw [hde.2.2.2.1]
        exact addAll_sub _ _ e he

theorem stepIter_ne_pending (st : SessionSt) (inp : IterIn) (st' : SessionSt)
    (ev : IterEv) : stepIter st inp ≠ (.halt .pending st', ev) := by
  intro h
  rw [stepIter] at h
  split at h
  · split at h
    · simp at h
    · cases hn : inp.hasNext <;> simp [doExtract, hn] at h
  · split at h
    · simp at h
    · cases hn : inp.hasNext <;> simp [doExtract, hn] at h

theorem runLoop_dropLast_extracted (inputs : List IterIn) :
    ∀ st : SessionSt,
      ((runLoop st inputs).events.dropLast.all (fun ev => ev.extracted)) = true := by
  induction inputs with
  | nil => intro st; simp [runLoop]
  | cons inp rest ih =>
    intro st
    cases hs : stepIter st inp with
    | mk r ev =>
      cases r with
      | cont st' =>
        simp only [runLoop, hs]
        have hev : ev.extracted = true := stepIter_cont_extracted hs
        cases hevs : (runLoop st' rest).events with
        | nil => simp [List.dropLast]
        | cons e2 es =>
          have := ih st'
          rw [hevs] at this
          simp [List.dropLast, hev]
          simpa using this
      | halt o st' =>
        simp [runLoop, hs, List.dropLast]

theorem runLoop_calm_extracted (inputs : List IterIn) :
    ∀ st : SessionSt,
      (runLoop st inputs).outcome = .pending ∨ (runLoop st inputs).outcome = .noNext →
      ((runLoop st inputs).events.all (fun ev => ev.extracted)) = true := by
  induction inputs with
  | nil => intro st _; simp [runLoop]
  | cons inp rest ih =>
    intro st ho
    cases hs : stepIter st inp with
    | mk r ev =>
      cases r with
      | cont st' =>
        simp only [runLoop, hs] at ho ⊢
        have hev : ev.extracted = true := stepIter_cont_extracted hs
        simp [hev]
        simpa using ih st' ho
      | halt o st' =>
        simp only [runLoop, hs] at ho ⊢
        cases o with
        | pending => exact absurd hs (stepIter_ne_pending st inp st' ev)
        | blocked => simp at ho
        | noNext => simp [stepIter_noNext_extracted hs]
        | crashed => simp at ho

theorem runLoop_crashed_any (inputs : List IterIn) :
    ∀ st : SessionSt,
      (runLoop st inputs).outcome = .crashed →
      (inputs.any (fun i => i.present && i.solved && i.recoveryThrows)) = true := by
  induction inputs with
  | nil => intro st h; simp [runLoop] at h
  | cons inp rest ih =>
    intro st h
    cases hs : stepIter st inp with
    | mk r ev =>
      cases r with
      | cont st' =>
        simp only [runLoop, hs] at h
        simp [ih st' h]
      | halt o st' =>
        simp only [runLoop, hs] at h
        subst h
        have hf := stepIter_crashed hs
        simp [hf.1, hf.2.1, hf.2.2]

theorem runLoop_seen (inputs : List IterIn) :
    ∀ st : SessionSt,
      (∀ ev ∈ (runLoop st inputs).events,
        (∀ e ∈ ev.handoff, ¬ e ∈ ev.seenBefore ∧ e ∈ ev.seenAfter) ∧
        (∀ e ∈ ev.seenBefore, e ∈ ev.seenAfter)) ∧
      (∀ e ∈ st.collected, e ∈ (runLoop st inputs).state.collected) := by
  induction inputs with
  | nil =>
    intro st
    constructor
    · intro ev hev; simp [runLoop] at hev
    · intro e he; simpa [runLoop] using he
  | cons inp rest ih =>
    intro st
    cases hs : stepIter st inp with
    | mk r ev =>
      have hfact := stepIter_seen st inp
      rw [hs] at hfact
      simp only at hfact
      cases r with
      | cont st' =>
        constructor
        · intro ev2 hev2
          simp only [runLoop, hs] at hev2
          rcases List.mem_cons.mp hev2 with he1 | he2
          · subst he1; exact ⟨hfact.2.2.1, hfact.2.2.2⟩
          · exact (ih st').1 ev2 he2
        · intro e he
          simp only [runLoop, hs]
          apply (ih st').2
          rw [show st'.collected = ev.seenAfter from hfact.1]
          exact hfact.2.2.2 e (by rw [hfact.2.1]; exact he)
      | halt o st' =>
        constructor
        · intro ev2 hev2
          simp only [runLoop, hs] at hev2
          rcases List.mem_cons.mp hev2 with he1 | he2
          · subst he1; exact ⟨hfact.2.2.1, hfact.2.2.2⟩
          · cases he2
        · intro e he
          simp only [runLoop, hs]
          rw [show st'.collected = ev.seenAfter from hfact.1]
          exact hfact.2.2.2 e (by rw [hfact.2.1]; exact he)

theorem runLoop_three (u1 u2 u3 : IterIn) (rest : List IterIn)
    (h1p : u1.present = true) (h1s : u1.solved = false) (h1n : u1.hasNext = true)
    (h2p : u2.present = true) (h2s : u2.solved = false) (h2n : u2.hasNext = true)
    (h3p : u3.present = true) (h3s : u3.solved = false) :
    (runLoop initialSession (u1 :: u2 :: u3 :: rest)).outcome = .blocked ∧
    (runLoop initialSession (u1 :: u2 :: u3 :: rest)).events.length = 3 := by
  simp [runLoop, stepIter, doExtract, initialSession, h1p, h1s, h1n, h2p, h2s, h2n,
    h3p, h3s]

/-! ### Solver lemmas -/

theorem addType_nodup (l : List String) :
    ∀ acc : List String, acc.Nodup →
      (l.foldl (fun acc t => if t ∈ acc then acc else acc ++ [t]) acc).Nodup := by
  induction l with
  | nil => intro acc h; exact h
  | cons x l ih =>
    intro acc h
    simp only [List.foldl_cons]
    by_cases hx : x ∈ acc
    · rw [if_pos hx]; exact ih acc h
    · rw [if_neg hx]
      apply ih
      rw [List.nodup_append]
      refine ⟨h, List.nodup_singleton x, ?_⟩
      intro a ha hax
      rw [List.mem_singleton] at hax
      subst hax
      exact hx ha

theorem addType_head (l : List String) :
    ∀ acc : List String, acc ≠ [] →
      (l.foldl (fun acc t => if t ∈ acc then acc else acc ++ [t]) acc).head? = acc.head? := by
  induction l with
  | nil => intro acc _; rfl
  | cons x l ih =>
    intro acc hacc
    simp only [List.foldl_cons]
    by_cases hx : x ∈ acc
    · rw [if_pos hx]; exact ih acc hacc
    · rw [if_neg hx]
      rw [ih (acc ++ [x]) (by simp)]
      cases acc with
      | nil => exact absurd rfl hacc
      | cons a as => simp

theorem buildTypes_nodup (hint : Option String) : (buildTypes hint).Nodup := by
  cases hint with
  | none => exact addType_nodup fallbackTypes [] List.nodup_nil
  | some h => exact addType_nodup fallbackTypes [h] (List.nodup_singleton h)

theorem buildTypes_head (h : String) : (buildTypes (some h)).head? = some h := by
  have := addType_head fallbackTypes [h] (by simp)
  simpa [buildTypes] using this

theorem solveLoop_head_token (svc : String → PostResp) (poll : String → Nat → PollResp)
    (t : String) (ts : List String) (tk : String)
    (h : (tryType svc poll t).1 = some tk) :
    solveLoop svc poll (t :: ts) = (some tk, (tryType svc poll t).2) := by
  simp [solveLoop, h]

theorem solveLoop_head_none (svc : String → PostResp) (poll : String → Nat → PollResp)
    (t : String) (ts : List String) (h : (tryType svc poll t).1 = none) :
    (solveLoop svc poll (t :: ts)).1 = (solveLoop svc poll ts).1 := by
  simp [solveLoop, h]

theorem solveLoop_all_none (svc : String → PostResp) (poll : String → Nat → PollResp) :
    ∀ ts : List String,
      (ts.all (fun t => ((tryType svc poll t).1).isNone)) = true →
      (solveLoop svc poll ts).1 = none := by
  intro ts
  induction ts with
  | nil => intro _; rfl
  | cons t ts ih =>
    intro h
    simp only [List.all_cons, Bool.and_eq_true] at h
    have h1 : (tryType svc poll t).1 = none := by
      cases hv : (tryType svc poll t).1
      · rfl
      · rw [hv] at h; simp at h
    rw [solveLoop_head_none svc poll t ts h1]
    exact ih h.2

theorem tryType_invalid (svc : String → PostResp) (poll : String → Nat → PollResp)
    (t : String) (tok idl : Option String)
    (h : svc t = .resp false 400 true tok idl) :
    tryType svc poll t = (none, [SolverEv.tried t]) := by
  simp [tryType, h]

theorem tryType_429 (svc : String → PostResp) (poll : String → Nat → PollResp)
    (t : String) (inv : Bool) (tok idl : Option String)
    (h : svc t = .resp false 429 inv tok idl) :
    tryType svc poll t = (none, [SolverEv.tried t, SolverEv.slept 1000]) := by
  simp [tryType, h]

theorem tryType_token (svc : String → PostResp) (poll : String → Nat → PollResp)
    (t : String) (status : Nat) (inv : Bool) (tk : String) (idl : Option String)
    (h : svc t = .resp true status inv (some tk) idl) :
    tryType svc poll t = (some tk, [SolverEv.tried t]) := by
  simp [tryType, h]

/-! ### Scheduler lemmas -/

theorem batchesAux_nil (C : Nat) : ∀ fuel, batchesAux C fuel [] = [] := by
  intro fuel
  cases fuel <;> rfl

theorem batchesAux_join (C : Nat) (hC : 1 ≤ C) :
    ∀ (fuel : Nat) (qs : List String), qs.length ≤ fuel →
      (batchesAux C fuel qs).flatten = qs := by
  intro fuel
  induction fuel with
  | zero =>
    intro qs h
    have hq : qs = [] := List.eq_nil_of_length_eq_zero (Nat.le_zero.mp h)
    subst hq
    rfl
  | succ k ih =>
    intro qs h
    cases qs with
    | nil => rfl
    | cons q t =>
      simp only [batchesAux, List.flatten_cons]
      rw [ih ((q :: t).drop C) (by simp [List.length_drop] at h ⊢; omega)]
      exact List.take_append_drop C (q :: t)

theorem batchesAux_dropLast (C : Nat) (hC : 1 ≤ C) :
    ∀ (fuel : Nat) (qs : List String), qs.length ≤ fuel →
      ((batchesAux C fuel qs).dropLast.all (fun b => b.length == C)) = true := by
  intro fuel
  induction fuel with
  | zero =>
    intro qs h
    have hq : qs = [] := List.eq_nil_of_length_eq_zero (Nat.le_zero.mp h)
    subst hq
    rfl
  | succ k ih =>
    intro qs h
    cases qs with
    | nil => rfl
    | cons q t =>
      simp only [batchesAux]
      cases hrest : batchesAux C k ((q :: t).drop C) with
      | nil => simp [hrest, List.dropLast]
      | cons b bs =>
        have hlen : C < (q :: t).length := by
          by_contra hle
          push_neg at hle
          have hdrop : (q :: t).drop C = [] := List.drop_eq_nil_of_le hle
          rw [hdrop, batchesAux_nil] at hrest
          cases hrest
        have htake : ((q :: t).take C).length = C := by
          rw [List.length_take]
          omega
        have hdl : ((q :: t).take C :: b :: bs).dropLast
            = (q :: t).take C :: (b :: bs).dropLast := rfl
        rw [hdl, List.all_cons, Bool.and_eq_true]
        constructor
        · simp [htake]
        · rw [← hrest]
          exact ih _ (by simp [List.length_drop] at h ⊢; omega)

theorem batchesAux_bounds (C : Nat) (hC : 1 ≤ C) :
    ∀ (fuel : Nat) (qs : List String), qs.length ≤ fuel →
      ((batchesAux C fuel qs).all
        (fun b => decide (1 ≤ b.length) && decide (b.length ≤ C))) = true := by
  intro fuel
  induction fuel with
  | zero =>
    intro qs h
    have hq : qs = [] := List.eq_nil_of_length_eq_zero (Nat.le_zero.mp h)
    subst hq
    rfl
  | succ k ih =>
    intro qs h
    cases qs with
    | nil => rfl
    | cons q t =>
      simp only [batchesAux, List.all_cons, Bool.and_eq_true]
      constructor
      · have hmin : ((q :: t).take C).length = min C (q :: t).length := List.length_take C _
        simp only [Bool.and_eq_true, decide_eq_true_eq]
        constructor
        · rw [hmin]; simp; omega
        · rw [hmin]; omega
      · exact ih _ (by simp [List.length_drop] at h ⊢; omega)

theorem join_map_map {α β : Type} (f : α → β) :
    ∀ bs : List (List α), (bs.map (fun b => b.map f)).flatten = bs.flatten.map f := by
  intro bs
  induction bs with
  | nil => rfl
  | cons b bs ih =>
    simp only [List.map_cons, List.flatten_cons, List.map_append, ih]

/-! ### Claim theorems -/

/-- C1: the spec claims every data row appended to the delimited output
carries the three header fields `{email, query, timestamp}` and that the
structured-store insert receives the same three-field records.  Evaluating
the persistence helpers of the code at a concrete batch shows the appended
line has only two comma-separated fields — the `query` field is dropped by
`appendToCSV` — under the three-field header, and the Supabase insert rows
carry only `created_at` and `email`. -/
theorem C1_row_drops_query_field :
    appendToCSV [⟨"a@b.com", "plumber chicago", "2025-01-01T00:00:00.000Z"⟩]
      = "a@b.com,2025-01-01T00:00:00.000Z\n"
    ∧ (splitFields
        (csvRowLine ⟨"a@b.com", "plumber chicago", "2025-01-01T00:00:00.000Z"⟩).data).length
      = 2
    ∧ (splitFields csvHeader.data).length = 3
    ∧ saveToSupabase [⟨"a@b.com", "plumber chicago", "2025-01-01T00:00:00.000Z"⟩]
      = [{ created_at := "2025-01-01T00:00:00.000Z", email := "a@b.com" }] := by
  refine ⟨?_, ?_, ?_, ?_⟩ <;> decide

/-- C9: context lifecycle of `runQuery`.  When `context.newPage()` throws
(line 434, outside the `try`/`finally`), the acquired context is never
released — contradicting the claim (and the code's own comment) that the
context is released exactly once on every exit path; on the paths that do
reach the loop, the context is acquired once and released exactly once for
every outcome, including a crashed loop; and when `newContext` itself
throws nothing is acquired. -/
theorem C9_context_release :
    runQuerySession false true [] = (SessionExit.raised, 1, 0)
    ∧ (∀ inputs : List IterIn, (runQuerySession false false inputs).2 = (1, 1))
    ∧ runQuerySession true false [] = (SessionExit.raised, 0, 0) := by
  refine ⟨rfl, ?_, rfl⟩
  intro inputs
  rfl

/-- C10 counterexample: the claim says the backup/overwrite happens whenever
the first line is not *exactly* the header.  A file whose first line is
`" email,query,timestamp"` (leading space, hence not exactly the header) is
left unchanged with no backup, because the code compares the *trimmed*
first line. -/
theorem C10_counterexample :
    ((String.mk (firstLineChars (" email,query,timestamp\nrow@x.de,q,t\n" : String).data)
        == csvHeader) = false)
    ∧ initOutput (some " email,query,timestamp\nrow@x.de,q,t\n")
      = (" email,query,timestamp\nrow@x.de,q,t\n", none) := by
  refine ⟨?_, ?_⟩ <;> decide

/-- C10 (amended): at startup a missing output file is created containing
only the header line; an existing file whose first line, after trimming
surrounding whitespace, equals `email,query,timestamp` is left unchanged;
otherwise the entire prior contents become the backup copy and the file is
overwritten with a header-only file. -/
theorem C10_header_init (c : String) :
    initOutput none = (csvHeader ++ "\n", none)
    ∧ ((String.mk (trimChars (firstLineChars c.data)) == csvHeader) = true →
        initOutput (some c) = (c, none))
    ∧ ((String.mk (trimChars (firstLineChars c.data)) == csvHeader) = false →
        initOutput (some c) = (csvHeader ++ "\n", some c)) := by
  refine ⟨rfl, ?_, ?_⟩
  · intro h
    have h' : String.mk (trimChars (firstLineChars c.data)) = csvHeader := by
      rwa [beq_iff_eq] at h
    simp [initOutput, h']
  · intro h
    have h' : ¬ String.mk (trimChars (firstLineChars c.data)) = csvHeader := by
      intro he
      rw [he] at h
      simp at h
    simp [initOutput, h']

/-- C10 witness: a file with an old header is backed up in full and
overwritten with a header-only file. -/
theorem C10_header_init_witness :
    ((String.mk (trimChars (firstLineChars ("old,header\nrow\n" : String).data))
        == csvHeader) = false)
    ∧ initOutput (some "old,header\nrow\n")
      = (csvHeader ++ "\n", some "old,header\nrow\n") :=
  ⟨by decide, (C10_header_init "old,header\nrow\n").2.2 (by decide)⟩

/-- C2 counterexample: a session whose every iteration reports an
unresolved challenge runs extraction on iterations 1 and 2, but the third
iteration — the one that triggers the blocked-query `break` at
`src/main.js:454-456` — ends without any extraction pass, contradicting
the claim that extraction is attempted in every iteration. -/
theorem C2_counterexample :
    ((runLoop initialSession
        [⟨true, false, false, "a@b.de", true⟩, ⟨true, false, false, "a@b.de", true⟩,
         ⟨true, false, false, "a@b.de", true⟩]).events.map IterEv.extracted)
      = [true, true, false]
    ∧ (([⟨true, false, false, "a@b.de", true⟩, ⟨true, false, false, "a@b.de", true⟩,
         ⟨true, false, false, "a@b.de", true⟩] : List IterIn).all
        (fun i => i.present && !i.solved)) = true := by
  refine ⟨?_, ?_⟩ <;> decide

/-- C2 (amended): extraction runs in every loop iteration except one that
terminates the session early — the third-consecutive-unresolved `break`
or an error escaping the recovery wait; in particular every iteration
before the last one extracts, and when the session is still pending or
ended by exhausted results, every iteration extracted, regardless of the
challenge classification. -/
theorem C2_extraction_runs (st : SessionSt) (inputs : List IterIn) :
    ((runLoop st inputs).events.dropLast.all (fun ev => ev.extracted)) = true
    ∧ ((runLoop st inputs).outcome = Outcome.pending ∨
        (runLoop st inputs).outcome = Outcome.noNext →
        ((runLoop st inputs).events.all (fun ev => ev.extracted)) = true) :=
  ⟨runLoop_dropLast_extracted inputs st, runLoop_calm_extracted inputs st⟩

/-- C2 witness: one clear iteration with a next page leaves the session
pending and every iteration ran extraction. -/
theorem C2_extraction_runs_witness :
    ((runLoop initialSession [⟨false, false, false, "a@b.de x@y.de", true⟩]).outcome
        = Outcome.pending
      ∨ (runLoop initialSession [⟨false, false, false, "a@b.de x@y.de", true⟩]).outcome
        = Outcome.noNext)
    ∧ ((runLoop initialSession [⟨false, false, false, "a@b.de x@y.de", true⟩]).events.all
        (fun ev => ev.extracted)) = true :=
  ⟨Or.inl (by decide),
   (C2_extraction_runs initialSession [⟨false, false, false, "a@b.de x@y.de", true⟩]).2
     (Or.inl (by decide))⟩

/-- C3 counterexample: a session whose every iteration reports an
unresolved challenge but whose paginator finds no next page terminates
after one iteration with the exhausted-results outcome, not after three
iterations with the blocked outcome as the claim states. -/
theorem C3_counterexample :
    (runLoop initialSession
      [⟨true, false, false, "", false⟩, ⟨true, false, false, "", false⟩,
       ⟨true, false, false, "", false⟩]).outcome = Outcome.noNext
    ∧ (runLoop initialSession
        [⟨true, false, false, "", false⟩, ⟨true, false, false, "", false⟩,
         ⟨true, false, false, "", false⟩]).events.length = 1
    ∧ (([⟨true, false, false, "", false⟩, ⟨true, false, false, "", false⟩,
         ⟨true, false, false, "", false⟩] : List IterIn).all
        (fun i => i.present && !i.solved)) = true := by
  refine ⟨?_, ?_, ?_⟩ <;> decide

/-- C3 (amended): starting from a fresh session, if the first three
iterations all report a present-and-unresolved challenge and pagination
succeeds on the first two, the session stops with the blocked-query
outcome after exactly 3 iterations (whatever follows in the trace); and
any iteration whose challenge is clear or resolved resets the
consecutive-unresolved counter to zero. -/
theorem C3_blocked_after_three :
    (∀ (u1 u2 u3 : IterIn) (rest : List IterIn),
      u1.present = true → u1.solved = false → u1.hasNext = true →
      u2.present = true → u2.solved = false → u2.hasNext = true →
      u3.present = true → u3.solved = false →
      (runLoop initialSession (u1 :: u2 :: u3 :: rest)).outcome = Outcome.blocked ∧
      (runLoop initialSession (u1 :: u2 :: u3 :: rest)).events.length = 3)
    ∧ (∀ (st : SessionSt) (inp : IterIn),
        (inp.present && !inp.solved) = false → (stepIter st inp).1.state.cc = 0) :=
  ⟨fun u1 u2 u3 rest h1p h1s h1n h2p h2s h2n h3p h3s =>
      runLoop_three u1 u2 u3 rest h1p h1s h1n h2p h2s h2n h3p h3s,
    fun _ _ h => stepIter_reset h⟩

/-- C3 witness: three unresolved iterations with working pagination stop
the fresh session as blocked after exactly 3 iterations, and a solved
iteration resets the counter. -/
theorem C3_blocked_after_three_witness :
    ((runLoop initialSession
        [⟨true, false, false, "", true⟩, ⟨true, false, false, "", true⟩,
         ⟨true, false, false, "", true⟩]).outcome = Outcome.blocked
      ∧ (runLoop initialSession
          [⟨true, false, false, "", true⟩, ⟨true, false, false, "", true⟩,
           ⟨true, false, false, "", true⟩]).events.length = 3)
    ∧ (((⟨true, true, false, "", true⟩ : IterIn).present
          && !(⟨true, true, false, "", true⟩ : IterIn).solved) = false
        ∧ (stepIter { collected := ["a@b.de"], pageNum := 4, cc := 2 }
            ⟨true, true, false, "", true⟩).1.state.cc = 0) :=
  ⟨C3_blocked_after_three.1 ⟨true, false, false, "", true⟩ ⟨true, false, false, "", true⟩
      ⟨true, false, false, "", true⟩ [] rfl rfl rfl rfl rfl rfl rfl rfl,
    by decide,
    C3_blocked_after_three.2 { collected := ["a@b.de"], pageNum := 4, cc := 2 }
      ⟨true, true, false, "", true⟩ (by decide)⟩

/-- C5 counterexample: an error thrown inside a single loop iteration
(the unprotected recovery wait of `src/main.js:465`, here on iteration 1
after a solved challenge) terminates the session: the loop runs exactly
one iteration and never re-enters challenge detection on the second stub
input, contradicting the claim that the loop continues. -/
theorem C5_counterexample :
    (runLoop initialSession
      [⟨true, true, true, "", true⟩, ⟨false, false, false, "a@b.de", true⟩]).outcome
      = Outcome.crashed
    ∧ (runLoop initialSession
        [⟨true, true, true, "", true⟩, ⟨false, false, false, "a@b.de", true⟩]).events.length
      = 1 := by
  refine ⟨?_, ?_⟩ <;> decide

/-- C5 (amended): the helpers (`maybeHandleCaptcha`,
`extractEmailsFromPage`, `goToNextPage`, the persistence calls) swallow
their own failures, so those failures continue the loop; the session loop
terminates abnormally only when the unprotected post-solve recovery wait
throws: a crashed outcome implies some iteration had a present, solved
challenge whose recovery wait threw, and that error is caught at session
level (the loop is not resumed). -/
theorem C5_crash_source (st : SessionSt) (inputs : List IterIn)
    (h : (runLoop st inputs).outcome = Outcome.crashed) :
    (inputs.any (fun i => i.present && i.solved && i.recoveryThrows)) = true :=
  runLoop_crashed_any inputs st h

/-- C5 witness: a crashed run exhibits a throwing recovery wait in its
input trace. -/
theorem C5_crash_source_witness :
    (runLoop initialSession [⟨true, true, true, "", true⟩]).outcome = Outcome.crashed
    ∧ ([(⟨true, true, true, "", true⟩ : IterIn)].any
        (fun i => i.present && i.solved && i.recoveryThrows)) = true :=
  ⟨by decide, C5_crash_source initialSession [⟨true, true, true, "", true⟩] (by decide)⟩

/-- C6: within one session, every identity handed to the persistence
collaborators was absent from the seen-records set at the moment of
extraction and is already in the updated set at handoff time (the set is
updated synchronously before the handoff), each iteration only adds to
the set, and the set at the end of the session contains everything it
started with — it never shrinks. -/
theorem C6_seen_set_invariant (st : SessionSt) (inputs : List IterIn) :
    ((runLoop st inputs).events.all (fun ev =>
        ev.handoff.all (fun e => !(decide (e ∈ ev.seenBefore)) && decide (e ∈ ev.seenAfter))
        && ev.seenBefore.all (fun e => decide (e ∈ ev.seenAfter)))) = true
    ∧ (st.collected.all (fun e => decide (e ∈ (runLoop st inputs).state.collected))) = true := by
  have hp := runLoop_seen inputs st
  constructor
  · rw [List.all_eq_true]
    intro ev hev
    rw [Bool.and_eq_true]
    constructor
    · rw [List.all_eq_true]
      intro e he
      have hh := (hp.1 ev hev).1 e he
      simp [hh.1, hh.2]
    · rw [List.all_eq_true]
      intro e he
      simp [(hp.1 ev hev).2 e he]
  · rw [List.all_eq_true]
    intro e he
    simp [hp.2 e he]

/-- C8: the scheduler partitions the query list into consecutive batches
of size `C` (all batches but the last have exactly `C` queries; every
batch is nonempty and at most `C`), the concatenation of the batches is
the original list, and — since each batch is awaited with
`Promise.allSettled` — every query of every batch reaches a settled state
(fulfilled or rejected) with one settled result per query, batch by
batch, before the next batch starts. -/
theorem C8_scheduler_batches (C : Nat) (qs : List String)
    (sess : String → Except String Unit) (hC : 1 ≤ C) :
    (batchSlices C qs).flatten = qs
    ∧ ((batchSlices C qs).dropLast.all (fun b => b.length == C)) = true
    ∧ ((batchSlices C qs).all
        (fun b => decide (1 ≤ b.length) && decide (b.length ≤ C))) = true
    ∧ (runScheduler sess C qs).flatten.length = qs.length
    ∧ (runScheduler sess C qs).length = (batchSlices C qs).length := by
  refine ⟨?_, ?_, ?_, ?_, ?_⟩
  · exact batchesAux_join C hC qs.length qs (Nat.le_refl _)
  · exact batchesAux_dropLast C hC qs.length qs (Nat.le_refl _)
  · exact batchesAux_bounds C hC qs.length qs (Nat.le_refl _)
  · rw [runScheduler, join_map_map (fun q => settleRes (sess q)) (batchSlices C qs),
      List.length_map]
    exact congrArg List.length (batchesAux_join C hC qs.length qs (Nat.le_refl _))
  · rw [runScheduler, List.length_map]

/-- C8 witness: 7 queries with ceiling 3 form batches of sizes 3, 3, 1,
their concatenation is the input list, and all 7 sessions settle even
when one of them fails. -/
theorem C8_scheduler_batches_witness :
    (batchSlices 3 ["a", "b", "c", "d", "e", "f", "g"]).map List.length = [3, 3, 1]
    ∧ (batchSlices 3 ["a", "b", "c", "d", "e", "f", "g"]).flatten
      = ["a", "b", "c", "d", "e", "f", "g"]
    ∧ (runScheduler (fun q => if q == "c" then Except.error "boom" else Except.ok ()) 3
        ["a", "b", "c", "d", "e", "f", "g"]).flatten.length = 7 :=
  ⟨by decide,
    (C8_scheduler_batches 3 ["a", "b", "c", "d", "e", "f", "g"]
      (fun q => if q == "c" then Except.error "boom" else Except.ok ()) (by decide)).1,
    (C8_scheduler_batches 3 ["a", "b", "c", "d", "e", "f", "g"]
      (fun q => if q == "c" then Except.error "boom" else Except.ok ()) (by decide)).2.2.2.1⟩

/-- C4 counterexample: the text `a@b.come@d.com` contains two
syntactically valid, distinct-when-lower-cased, non-deny-listed
addresses (`a@b.com` and `e@d.com`) as substrings, yet the extractor
returns the single identity `a@b.come` — the greedy global regex merges
adjacent addresses — so the claim fails for general page texts. -/
theorem C4_counterexample :
    validEmailB "a@b.com" = true
    ∧ validEmailB "e@d.com" = true
    ∧ occursIn ("a@b.com" : String).data ("a@b.come@d.com" : String).data = true
    ∧ occursIn ("e@d.com" : String).data ("a@b.come@d.com" : String).data = true
    ∧ ((lowerStr "a@b.com" == lowerStr "e@d.com") = false)
    ∧ isDeniedEmail (lowerStr "a@b.com") = false
    ∧ isDeniedEmail (lowerStr "e@d.com") = false
    ∧ extractEmailsFromPage "a@b.come@d.com" = ["a@b.come"] := by
  refine ⟨?_, ?_, ?_, ?_, ?_, ?_, ?_, ?_⟩ <;> decide

/-- C4 (amended): for a page text in which the N addresses are separated
by a character outside the address character classes (formalised as the
space-separated concatenation of the addresses), if every address is
syntactically valid, none is deny-listed after lower-casing, and their
lower-cased forms are pairwise distinct, then the extractor returns
exactly the N distinct lower-cased identities, independent of the order
and the case of the addresses in the input. -/
theorem C4_extractor_separated (as : List String)
    (hv : (as.all validEmailB) = true)
    (hd : (as.all (fun a => !(isDeniedEmail (lowerStr a)))) = true)
    (hn : (as.map lowerStr).Nodup) :
    extractEmailsFromPage (joinedText as) = as.map lowerStr
    ∧ (extractEmailsFromPage (joinedText as)).length = as.length
    ∧ (extractEmailsFromPage (joinedText as)).Nodup := by
  have hv' : ∀ a ∈ as, tryMatchEmail a.data = some a.data.length := by
    rw [List.all_eq_true] at hv
    intro a ha
    have hb := hv a ha
    rw [validEmailB] at hb
    exact eq_of_beq hb
  have hd' : ∀ a ∈ as, isDeniedEmail (lowerStr a) = false := by
    rw [List.all_eq_true] at hd
    intro a ha
    have hb := hd a ha
    simpa using hb
  have he := extract_joined as hv' hd'
  refine ⟨he, ?_, ?_⟩
  · rw [he, List.length_map]
  · rw [he]
    exact hn

/-- C4 witness: the mixed-case pair `a@b.com`, `C@D.org` joined by a
space extracts to exactly the two distinct lower-cased identities. -/
theorem C4_extractor_separated_witness :
    ((["a@b.com", "C@D.org"] : List String).all validEmailB) = true
    ∧ ((["a@b.com", "C@D.org"] : List String).all
        (fun a => !(isDeniedEmail (lowerStr a)))) = true
    ∧ ((["a@b.com", "C@D.org"] : List String).map lowerStr).Nodup
    ∧ extractEmailsFromPage (joinedText ["a@b.com", "C@D.org"])
      = (["a@b.com", "C@D.org"] : List String).map lowerStr
    ∧ (extractEmailsFromPage (joinedText ["a@b.com", "C@D.org"])).length = 2 :=
  ⟨by decide, by decide, by decide,
    (C4_extractor_separated ["a@b.com", "C@D.org"] (by decide) (by decide) (by decide)).1,
    (C4_extractor_separated ["a@b.com", "C@D.org"] (by decide) (by decide) (by decide)).2.1⟩

/-- C7: the token solver tries candidate types in priority order — the
hint first when present, then the fixed fallback sequence, with no type
repeated; it stops at the first type whose attempt yields a token and
returns that token; a 400 response whose body indicates an invalid type
advances to the next type with no sleep; a 429 response backs off 1000ms
before advancing; and when every candidate type is exhausted without a
token the solver returns `none` (it is a total function — it cannot
throw). -/
theorem C7_solver_protocol :
    (∀ hint : Option String, (buildTypes hint).Nodup)
    ∧ buildTypes none = fallbackTypes
    ∧ (∀ h : String, (buildTypes (some h)).head? = some h)
    ∧ (∀ (svc : String → PostResp) (poll : String → Nat → PollResp) (t : String)
        (ts : List String) (tk : String),
        (tryType svc poll t).1 = some tk →
        solveLoop svc poll (t :: ts) = (some tk, (tryType svc poll t).2))
    ∧ (∀ (svc : String → PostResp) (poll : String → Nat → PollResp) (t : String)
        (tok idl : Option String),
        svc t = PostResp.resp false 400 true tok idl →
        tryType svc poll t = (none, [SolverEv.tried t]))
    ∧ (∀ (svc : String → PostResp) (poll : String → Nat → PollResp) (t : String)
        (inv : Bool) (tok idl : Option String),
        svc t = PostResp.resp false 429 inv tok idl →
        tryType svc poll t = (none, [SolverEv.tried t, SolverEv.slept 1000]))
    ∧ (∀ (hint : Option String) (svc : String → PostResp) (poll : String → Nat → PollResp),
        ((buildTypes hint).all (fun t => ((tryType svc poll t).1).isNone)) = true →
        (solveRecaptchaToken true hint svc poll).1 = none) := by
  refine ⟨buildTypes_nodup, by decide, buildTypes_head, ?_, ?_, ?_, ?_⟩
  · intro svc poll t ts tk h
    exact solveLoop_head_token svc poll t ts tk h
  · intro svc poll t tok idl h
    exact tryType_invalid svc poll t tok idl h
  · intro svc poll t inv tok idl h
    exact tryType_429 svc poll t inv tok idl h
  · intro hint svc poll h
    simp only [solveRecaptchaToken, if_true]
    exact solveLoop_all_none svc poll (buildTypes hint) h

/-- C7 witness: concrete service stubs exercise each clause — the hinted
type list starts with the hint and has no repeats, a 400 `Invalid type`
response advances with no sleep, a 429 response sleeps 1000ms, a token
response stops the loop, and a service that always throws exhausts every
type and yields `none`. -/
theorem C7_solver_protocol_witness :
    (buildTypes (some "recaptcha")).Nodup
    ∧ (buildTypes (some "recaptcha")).head? = some "recaptcha"
    ∧ tryType svcStubA pollStubZ "recaptcha3" = (none, [SolverEv.tried "recaptcha3"])
    ∧ tryType svcStub429 pollStubZ "recaptcha"
      = (none, [SolverEv.tried "recaptcha", SolverEv.slept 1000])
    ∧ solveLoop svcStubA pollStubZ ["recaptcha", "recaptcha_enterprise"]
      = (some "TOK", (tryType svcStubA pollStubZ "recaptcha").2)
    ∧ (solveRecaptchaToken true none svcStubErr pollStubZ).1 = none :=
  ⟨C7_solver_protocol.1 (some "recaptcha"),
    C7_solver_protocol.2.2.1 "recaptcha",
    C7_solver_protocol.2.2.2.2.1 svcStubA pollStubZ "recaptcha3" none none (by decide),
    C7_solver_protocol.2.2.2.2.2.1 svcStub429 pollStubZ "recaptcha" false none none
      (by decide),
    C7_solver_protocol.2.2.2.1 svcStubA pollStubZ "recaptcha" ["recaptcha_enterprise"]
      "TOK" (by decide),
    C7_solver_protocol.2.2.2.2.2.2 none svcStubErr pollStubZ (by decide)⟩
